import Mathlib

/-!
Verification development for the docusaurus-docs-search repository.

The repository's `src/` tree contains the search page and search bar
components (`SearchPage.tsx`, `SearchBar`).  Those components call into a
local-search core (`SearchSourceFactory`, `highlight`, `highlightStemmed`,
`getStemmedPositions`, the query tokenizer and the index loader) whose
sources are not part of the tree; that core is modelled here from the
specification, while every piece of logic that does appear in `src/` is
embedded directly from the TypeScript.
-/

/-! ## Data model (shared/interfaces, §3 of the spec)

Field names follow the wire format used by the TypeScript code:
`i` = id, `t` = title/text, `u` = url, `h` = hash/anchor, `b` = breadcrumb,
`s` = section title. -/

/-- A search document record as consumed by `SearchPage.tsx`
(`document.i`, `document.t`, `document.u`, `document.h`, `document.b`,
`document.s`). -/
structure SearchDocument where
  i : Nat
  t : String
  u : String
  h : Option String
  b : List String
  s : Option String
  deriving DecidableEq

/-- Modelled from the spec: PositionMetadata entry (§3) — one
`(stemmedTerm, startOffset, endOffset)` triple over the original text's
code points; the metadata sources are not under `src/`. -/
structure MetadataPosition where
  term : String
  start : Nat
  stop : Nat
  deriving DecidableEq

/-- A search result as destructured by `SearchResultItem` in
`SearchPage.tsx`: `{ document, type, page, tokens, metadata }`, where
`type` is the numeric tag 0 = Title, 1 = Heading, 2 = Content, and
`metadata` maps a field name (such as "t") to its position list. -/
structure SearchResult where
  document : SearchDocument
  type : Nat
  page : Option SearchDocument
  tokens : List String
  metadata : List (String × List MetadataPosition)
  deriving DecidableEq

/-! ## QueryTokenizer (modelled, spec §4.1) -/

/-- Modelled from the spec: word characters for the space-delimited path
(§4.1 "split on non-word-character boundaries"); the tokenizer source is
not under `src/`. -/
def isWordChar (c : Char) : Bool := c.isAlphanum

/-- Modelled from the spec: keep the longer of two candidate dictionary
matches (§4.1 maximal munch). -/
def longerDictEntry (cs : List Char) (best : Option (List Char)) (d : List Char) :
    Option (List Char) :=
  if !d.isEmpty && d.isPrefixOf cs then
    match best with
    | none => some d
    | some b => if b.length < d.length then some d else some b
  else best

/-- Modelled from the spec: longest dictionary entry that is a prefix of
the remaining input (§4.1 "longest-match-first (maximal munch)"). -/
def bestDictMatch (dict : List (List Char)) (cs : List Char) : Option (List Char) :=
  dict.foldl (longerDictEntry cs) none

/-- Emit the word accumulated so far (characters are held reversed). -/
def flushWord (acc : List Char) : List String :=
  if acc.isEmpty then [] else [String.mk acc.reverse]

/-- Modelled from the spec: tokenizer main loop (§4.1).  ASCII word
characters accumulate into lowercase tokens; other ASCII characters are
separators; non-ASCII runs are segmented by maximal munch against the
dictionary, falling back to single-character tokens (§7).  The fuel
argument starts above the input length, so the `0` case is never hit. -/
def tokenizeAux (dict : List (List Char)) : Nat → List Char → List Char → List String
  | 0, acc, _ => flushWord acc
  | _ + 1, acc, [] => flushWord acc
  | fuel + 1, acc, c :: cs =>
    if isWordChar c then tokenizeAux dict fuel (c.toLower :: acc) cs
    else if c.toNat < 128 then flushWord acc ++ tokenizeAux dict fuel [] cs
    else
      flushWord acc ++
        (match bestDictMatch dict (c :: cs) with
         | some d => String.mk d :: tokenizeAux dict fuel [] ((c :: cs).drop d.length)
         | none => String.mk [c] :: tokenizeAux dict fuel [] cs)

/-- Modelled from the spec: `QueryTokenizer` (§4.1) — raw query string to
an ordered sequence of lowercase tokens, empty tokens dropped. -/
def tokenize (dict : List String) (q : String) : List String :=
  tokenizeAux (dict.map String.toList) (q.length + 1) [] q.toList

/-! ## Escaping and safe-markup vocabulary (spec §4.5 escaping contract) -/

/-- Modelled from the spec: escape one character for markup embedding
(§4.5 "all literal text outside marker spans must be escaped"). -/
def escapeCharL (c : Char) : List Char :=
  if c = '<' then "&lt;".toList
  else if c = '>' then "&gt;".toList
  else if c = '&' then "&amp;".toList
  else if c = '"' then "&quot;".toList
  else [c]

/-- Escape every character of a character list. -/
def escapeListL (cs : List Char) : List Char := (cs.map escapeCharL).flatten

/-- Escape a string for markup embedding. -/
def escapeHtml (s : String) : String := String.mk (escapeListL s.toList)

/-- A lexical piece of highlighter output: an inserted marker tag, a
named escape entity, or a raw character that is not markup-significant. -/
inductive HtmlPiece where
  | markOpen : HtmlPiece
  | markClose : HtmlPiece
  | entity : String → HtmlPiece
  | rawChar : Char → HtmlPiece

/-- Characters contributed by one piece. -/
def HtmlPiece.renderPiece : HtmlPiece → List Char
  | markOpen => "<mark>".toList
  | markClose => "</mark>".toList
  | entity e => e.toList
  | rawChar c => [c]

/-- A piece is acceptable when it is a marker tag, one of the four escape
entities, or a character that carries no markup meaning. -/
def pieceOk : HtmlPiece → Prop
  | .entity e => e = "&lt;" ∨ e = "&gt;" ∨ e = "&amp;" ∨ e = "&quot;"
  | .rawChar c => c ≠ '<' ∧ c ≠ '>' ∧ c ≠ '&' ∧ c ≠ '"'
  | _ => True

/-- The safe-markup contract of §4.5: the output decomposes into marker
tags and literal pieces, and every literal piece is escaped — so every
markup-significant character of the output belongs to an inserted marker
tag. -/
def SafeChars (out : List Char) : Prop :=
  ∃ ps : List HtmlPiece, out = (ps.map HtmlPiece.renderPiece).flatten ∧ ∀ p ∈ ps, pieceOk p

/-- Safe-markup contract lifted to strings. -/
def SafeMarkup (s : String) : Prop := SafeChars s.toList

/-! ## Exact-mode highlighter (modelled, spec §4.5 "Exact mode") -/

/-- Modelled from the spec: case-insensitive token match at the head of
the text (§4.5 exact mode). -/
def tokenMatchesAt (tok cs : List Char) : Bool :=
  !tok.isEmpty && ((cs.take tok.length).map Char.toLower == tok.map Char.toLower)

/-- Modelled from the spec: the longest token matching at the head of the
text (§4.5 "longest-match-first scan"). -/
def bestTokenMatch (toks : List (List Char)) (cs : List Char) : Option (List Char) :=
  toks.foldl
    (fun acc t =>
      if tokenMatchesAt t cs then
        match acc with
        | none => some t
        | some b => if b.length < t.length then some t else some b
      else acc)
    none

/-- Modelled from the spec: exact-mode scan (§4.5).  At each position the
longest matching token is wrapped in a marker and wholly consumed (so a
character inside a marker is never wrapped again); other characters are
escaped and copied.  Fuel starts above the input length, so the `0` case
is never hit. -/
def highlightAuxL (toks : List (List Char)) : Nat → List Char → List Char
  | _, [] => []
  | 0, cs => escapeListL cs
  | fuel + 1, c :: cs =>
    match bestTokenMatch toks (c :: cs) with
    | some t =>
      "<mark>".toList ++ escapeListL ((c :: cs).take t.length) ++ "</mark>".toList ++
        highlightAuxL toks fuel ((c :: cs).drop t.length)
    | none => escapeCharL c ++ highlightAuxL toks fuel cs

/-- Modelled from the spec: the exact-mode highlighter
`highlight(text, tokens)` (§4.5) — full text shown, no windowing. -/
def highlight (text : String) (tokens : List String) : String :=
  let toks := (tokens.map String.toList).filter (fun t => !t.isEmpty)
  String.mk (highlightAuxL toks (text.length + 1) text.toList)

/-! ## PositionMapper (modelled, spec §4.4) -/

/-- Ordering on ranges by start offset (§4.4 "sort ranges by start"). -/
def rangeLE (a b : Nat × Nat) : Prop := a.1 ≤ b.1

instance : DecidableRel rangeLE := fun a b => inferInstanceAs (Decidable (a.1 ≤ b.1))

/-- Modelled from the spec: merge overlapping or adjacent ranges into
contiguous ranges (§4.4).  Fuel starts at the list length, which is
enough for every step: each recursive call removes one element. -/
def mergeRangesAux : Nat → List (Nat × Nat) → List (Nat × Nat)
  | 0, l => l
  | _ + 1, [] => []
  | _ + 1, [r] => [r]
  | fuel + 1, r1 :: r2 :: rest =>
    if r2.1 ≤ r1.2 then mergeRangesAux fuel ((r1.1, max r1.2 r2.2) :: rest)
    else r1 :: mergeRangesAux fuel (r2 :: rest)

/-- Merge pass over a start-sorted range list. -/
def mergeRanges (l : List (Nat × Nat)) : List (Nat × Nat) := mergeRangesAux l.length l

/-- Modelled from the spec: `PositionMapper` (§4.4) — keep metadata
entries whose stemmed term is a matched token, clamp to the text bounds,
drop empty ranges, sort by start and merge. -/
def positionRanges (len : Nat) (positions : List MetadataPosition) (tokens : List String) :
    List (Nat × Nat) :=
  let relevant := (positions.filter (fun p => tokens.contains p.term)).map
    (fun p => (p.start, p.stop))
  let clamped := (relevant.map (fun r => (min r.1 len, min r.2 len))).filter
    (fun r => r.1 < r.2)
  mergeRanges (List.insertionSort rangeLE clamped)

/-- `getStemmedPositions(metadata, field)`: the position list recorded for
one field of a result's metadata, or the empty list. -/
def getStemmedPositions (metadata : List (String × List MetadataPosition)) (field : String) :
    List MetadataPosition :=
  ((metadata.find? (fun kv => kv.1 == field)).map Prod.snd).getD []

/-! ## Windowed/stemmed-mode highlighter (modelled, spec §4.5) -/

/-- Modelled from the spec: if a window boundary would bisect a match
range, expand the window to fully include that range (§4.5). -/
def expandWindowEnd (rs : List (Nat × Nat)) (wend : Nat) : Nat :=
  rs.foldl (fun w r => if r.1 < w ∧ w < r.2 then r.2 else w) wend

/-- Render one positioned character: open a marker at a range start,
escape the character, close a marker at a range end. -/
def renderCharPieces (rsIn : List (Nat × Nat)) (p : Nat × Char) : List Char :=
  (if rsIn.any (fun r => r.1 == p.1) then "<mark>".toList else []) ++
    escapeCharL p.2 ++
    (if rsIn.any (fun r => r.2 == p.1 + 1) then "</mark>".toList else [])

/-- Modelled from the spec: windowed/stemmed-mode core (§4.5).  With no
ranges it falls back to a plain escaped excerpt (§4.4 degenerate case,
§7); otherwise it picks a window of at most `budget` characters around
the first match range, expands it so that no highlighted span is split,
truncates with ellipsis markers at the cut ends, and wraps each in-window
range in a marker. -/
def highlightStemmedL (cs : List Char) (ranges : List (Nat × Nat)) (budget : Nat) :
    List Char :=
  match ranges with
  | [] =>
    if cs.length ≤ budget then escapeListL cs
    else escapeListL (cs.take budget) ++ ['…']
  | r0 :: _ =>
    let wstart := if cs.length ≤ budget then 0 else r0.1
    let wend0 := if cs.length ≤ budget then cs.length else min cs.length (r0.1 + budget)
    let wend := min (expandWindowEnd ranges (max wend0 r0.2)) cs.length
    let rsIn := ranges.filter (fun r => wstart ≤ r.1 ∧ r.2 ≤ wend)
    (if 0 < wstart then ['…'] else []) ++
      ((List.enumFrom wstart ((cs.drop wstart).take (wend - wstart))).map
        (renderCharPieces rsIn)).flatten ++
      (if wend < cs.length then ['…'] else [])

/-- Modelled from the spec: the windowed/stemmed-mode highlighter
`highlightStemmed(text, positions, tokens, budget)` (§4.5), driven by the
PositionMapper ranges of §4.4. -/
def highlightStemmed (text : String) (positions : List MetadataPosition)
    (tokens : List String) (budget : Nat) : String :=
  let cs := text.toList
  String.mk (highlightStemmedL cs (positionRanges cs.length positions tokens) budget)

/-! ## MultiIndexSearcher / ResultMerger / Ranker (modelled, spec §4.2–4.3) -/

/-- Modelled from the spec: one indexed document inside a wrapped index —
its record, its owning top-level page (for heading/content indexes), the
stemmed terms of the indexed field, and the position metadata. -/
structure IndexedDocEntry where
  doc : SearchDocument
  page : Option SearchDocument
  terms : List String
  metadata : List (String × List MetadataPosition)
  deriving DecidableEq

/-- Modelled from the spec: a `WrappedIndex` (§3) — an inverted index over
one field type, tagged 0 = title, 1 = heading, 2 = content. -/
structure WrappedIndex where
  type : Nat
  entries : List IndexedDocEntry
  deriving DecidableEq

/-- A raw field-tagged hit (§4.2 output): a result plus its raw score. -/
structure RawHit where
  result : SearchResult
  score : Nat
  deriving DecidableEq

/-- Modelled from the spec: fixed field weight, Title > Heading > Content
(§4.2). -/
def fieldWeight (t : Nat) : Nat := 3 - min t 2

/-- Modelled from the spec: match one indexed document against the query
tokens (§4.2) — a field matches when it contains at least one query token
as an exact term or as a prefix of a term; the raw score is term
frequency times the field weight. -/
def hitOf (idxType : Nat) (tokens : List String) (e : IndexedDocEntry) : Option RawHit :=
  let matched := tokens.filter (fun tk => e.terms.any (fun s => tk.toList.isPrefixOf s.toList))
  if matched.isEmpty then none
  else
    let freq :=
      (e.terms.filter (fun s => tokens.any (fun tk => tk.toList.isPrefixOf s.toList))).length
    some ⟨⟨e.doc, idxType, e.page, matched, e.metadata⟩, freq * fieldWeight idxType⟩

/-- Modelled from the spec: raw hit list over every wrapped index (§4.2);
no cross-document ordering guarantee at this stage. -/
def rawHits (idxs : List WrappedIndex) (tokens : List String) : List RawHit :=
  (idxs.map (fun idx => idx.entries.filterMap (hitOf idx.type tokens))).flatten

/-- The deduplication key of §4.3: `(document.id, type)`. -/
def resultKey (r : SearchResult) : Nat × Nat := (r.document.i, r.type)

/-- Deduplication key of a raw hit. -/
def hitKey (h : RawHit) : Nat × Nat := resultKey h.result

/-- Order-preserving union of matched token sets (§4.3 merge). -/
def unionTokens (a b : List String) : List String :=
  a ++ b.filter (fun tk => !a.contains tk)

/-- Modelled from the spec: merge a duplicate hit into an existing entry —
union of matched tokens, maximum raw score, document/type/page/metadata
kept (§4.3). -/
def mergeInto (a h : RawHit) : RawHit :=
  ⟨⟨a.result.document, a.result.type, a.result.page,
      unionTokens a.result.tokens h.result.tokens, a.result.metadata⟩,
    max a.score h.score⟩

/-- Insert one raw hit into the accumulated merged list (§4.3 merge):
an existing entry with the same `(document.id, type)` key absorbs the
hit; otherwise the hit is appended, preserving encounter order. -/
def insertHit (acc : List RawHit) (h : RawHit) : List RawHit :=
  if acc.any (fun a => hitKey a == hitKey h) then
    acc.map (fun a => if hitKey a == hitKey h then mergeInto a h else a)
  else acc ++ [h]

/-- Modelled from the spec: the merge pass of §4.3. -/
def mergeHits (hits : List RawHit) : List RawHit := hits.foldl insertHit []

/-- Modelled from the spec: sort order of §4.3 — primary key ascending
numeric field tag (descending importance), secondary raw score
descending; insertion sort keeps the encounter order on ties. -/
def hitLE (a b : RawHit) : Prop :=
  a.result.type < b.result.type ∨ (a.result.type = b.result.type ∧ b.score ≤ a.score)

instance : DecidableRel hitLE := fun a b =>
  inferInstanceAs (Decidable (a.result.type < b.result.type ∨
    (a.result.type = b.result.type ∧ b.score ≤ a.score)))

/-- The sort pass of §4.3. -/
def sortHits (hits : List RawHit) : List RawHit := List.insertionSort hitLE hits

/-- Modelled from the spec: `SearchSourceFactory(wrappedIndexes,
zhDictionary, limit)` (§4.2–4.3, §6) — tokenize, search every wrapped
index, merge duplicates, sort, truncate to the limit and drop the raw
scores; the factory's source is not under `src/`. -/
def searchSourceFactory (wrappedIndexes : List WrappedIndex) (zhDictionary : List String)
    (limit : Nat) (input : String) : List SearchResult :=
  let tokens := tokenize zhDictionary input
  ((sortHits (mergeHits (rawHits wrappedIndexes tokens))).take limit).map RawHit.result

/-- The search source installed by the search page:
`SearchSourceFactory(wrappedIndexes, zhDictionary, 100)`
(`SearchPage.tsx`, `doFetchIndexes`). -/
def pageSearchSource (wrappedIndexes : List WrappedIndex) (zhDictionary : List String)
    (input : String) : List SearchResult :=
  searchSourceFactory wrappedIndexes zhDictionary 100 input

/-! ## SearchResultItem rendering (embedded from `SearchPage.tsx`) -/

/-- Placeholder document for the impossible `page = undefined` access that
the TypeScript performs with a cast (`page as SearchDocument`). -/
def defaultDoc : SearchDocument := ⟨0, "", "", none, [], none⟩

/-- `SearchResultItem` path computation (`SearchPage.tsx`): Title results
show their own breadcrumb; Heading/Content results show the page's
breadcrumb with the page title pushed at the end. -/
def pathItems (r : SearchResult) : List String :=
  let isTitle := r.type == 0
  let base := if isTitle then r.document.b else (r.page.getD defaultDoc).b
  if isTitle then base else base ++ [(r.page.getD defaultDoc).t]

/-- `SearchResultItem` article title (`SearchPage.tsx`): Content results
show the section title `document.s`, others show `document.t`. -/
def articleTitle (r : SearchResult) : String :=
  if r.type == 2 then (r.document.s.getD "") else r.document.t

/-- `SearchResultItem` heading markup (`SearchPage.tsx`): Content results
render the article title with the exact-mode `highlight`; Title and
Heading results render it with `highlightStemmed` over the stemmed
positions of field "t" with budget 100. -/
def searchResultTitleHtml (r : SearchResult) : String :=
  if r.type == 2 then highlight (articleTitle r) r.tokens
  else highlightStemmed (articleTitle r) (getStemmedPositions r.metadata "t") r.tokens 100

/-- `SearchResultItem` link query parameters (`SearchPage.tsx`): one
`_highlight` parameter appended per matched token. -/
def buildHighlightSearchParams (tokens : List String) : List (String × String) :=
  tokens.foldl (fun ps tk => ps ++ [("_highlight", tk)]) []

/-- `SearchResultItem` link search string (`SearchPage.tsx`): parameters
are built only when the `Mark` facility is available and the token list
is non-empty. -/
def resultLinkParams (markAvailable : Bool) (tokens : List String) : List (String × String) :=
  if markAvailable ∧ 0 < tokens.length then buildHighlightSearchParams tokens else []

/-- The `_highlight` values carried by a parameter list, in order. -/
def highlightParamValues (ps : List (String × String)) : List String :=
  (ps.filter (fun p => p.1 == "_highlight")).map Prod.snd

/-! ## SearchPageContent state logic (embedded from `SearchPage.tsx`) -/

/-- The search effect of `SearchPageContent` (`SearchPage.tsx` lines
109–124): with a loaded source and a non-empty query it runs the source
and commits the results; with an empty query it resets the results to
the absent value; with no source it leaves the results alone.  The
second component counts how many times the search source was invoked. -/
def runSearchEffect (searchSource : Option (String → List SearchResult))
    (searchQuery : String) (prev : Option (List SearchResult)) :
    Option (List SearchResult) × Nat :=
  match searchSource with
  | none => (prev, 0)
  | some src => if searchQuery ≠ "" then (some (src searchQuery), 1) else (none, 0)

/-- What the results section renders (`SearchPage.tsx` lines 225–254):
nothing while `searchResults` is absent, a count message for a non-empty
list, and for an empty list the "No documents were found" message in
production (a build warning otherwise). -/
inductive ResultsRender where
  | nothing : ResultsRender
  | countMessage : Nat → ResultsRender
  | noDocumentsMessage : ResultsRender
  | devWarning : ResultsRender
  deriving DecidableEq

/-- Rendering decision for the results block of `SearchPageContent`. -/
def renderResults (isProduction : Bool) : Option (List SearchResult) → ResultsRender
  | none => .nothing
  | some rs =>
    if 0 < rs.length then .countMessage rs.length
    else if isProduction then .noDocumentsMessage else .devWarning

/-- Sequential processing of a series of query changes: each change runs
the search effect to completion (the modelled source is synchronous, §5)
and commits its outcome. -/
def processQueries (src : String → List SearchResult) (init : Option (List SearchResult))
    (qs : List String) : Option (List SearchResult) :=
  qs.foldl (fun st q => (runSearchEffect (some src) q st).1) init

/-- The URL-synchronization effect of `SearchPageContent` (`SearchPage.tsx`
lines 133–137): only a non-empty URL search value that differs from the
current query overwrites the query state. -/
def syncQueryFromUrl (searchValue searchQuery : String) : String :=
  if searchValue ≠ "" ∧ searchValue ≠ searchQuery then searchValue else searchQuery

/-- The same effect on the full page state (query, results): the results
state is untouched by the synchronization effect. -/
def syncEffect (searchValue : String) (st : String × Option (List SearchResult)) :
    String × Option (List SearchResult) :=
  (syncQueryFromUrl searchValue st.1, st.2)

/-! ## Index loading (embedded from `SearchPage.tsx` / `SearchBar`) -/

/-- Failure reported when an index bundle cannot be fetched or parsed. -/
structure LoadError where
  message : String
  deriving DecidableEq

/-- `doFetchIndexes` (`SearchPage.tsx` lines 139–150): a successful fetch
installs the new search source; a failed fetch leaves the previous source
state untouched and surfaces the error to the caller. -/
def doFetchIndexes (res : Except LoadError (List WrappedIndex))
    (prev : Option (List WrappedIndex)) :
    Option (List WrappedIndex) × Option LoadError :=
  match res with
  | .error e => (prev, some e)
  | .ok idxs => (some idxs, none)

/-- A sequence of load outcomes applied to the published source state. -/
def runLoads (init : Option (List WrappedIndex))
    (outcomes : List (Except LoadError (List WrappedIndex))) :
    Option (List WrappedIndex) :=
  outcomes.foldl (fun st r => (doFetchIndexes r st).1) init

/-- The `indexState` ref of `SearchBar` ("empty", "loading", "done"). -/
inductive IndexState where
  | empty : IndexState
  | loading : IndexState
  | done : IndexState
  deriving DecidableEq

/-- Search-bar loading state: the `indexState` ref plus the number of
`fetchIndexes` calls issued so far. -/
structure SearchBarState where
  indexState : IndexState
  fetchCount : Nat
  deriving DecidableEq

/-- Events acting on the search-bar state: a `loadIndex` invocation
(from focus or mouse-enter) and the resolution of the pending fetch. -/
inductive BarEvent where
  | invokeLoadIndex : BarEvent
  | fetchResolved : BarEvent
  deriving DecidableEq

/-- `SearchBar.loadIndex` (`SearchPage.tsx` SearchBar, lines 750–795):
an invocation returns immediately unless the state is "empty"; the first
invocation moves the state to "loading" and issues the single
`fetchIndexes` call; the awaited completion moves it to "done". -/
def barStep (st : SearchBarState) (ev : BarEvent) : SearchBarState :=
  match ev with
  | .invokeLoadIndex =>
    if st.indexState = .empty then ⟨.loading, st.fetchCount + 1⟩ else st
  | .fetchResolved =>
    if st.indexState = .loading then ⟨.done, st.fetchCount⟩ else st

/-- Run the search bar from its initial state over a list of events. -/
def runBar (events : List BarEvent) : SearchBarState :=
  events.foldl barStep ⟨.empty, 0⟩

/-! ## Bundle well-formedness (spec §3 invariants) -/

/-- Modelled from the spec: the bundle invariant that every heading or
content entry carries its owning top-level document in `page` (§3
"`page` is always the top-level document for Heading/Content entries");
`pages` lists the top-level documents of the bundle. -/
def WFIndexes (idxs : List WrappedIndex) (pages : List SearchDocument) : Prop :=
  ∀ idx ∈ idxs, ∀ e ∈ idx.entries, idx.type ≠ 0 → ∃ p ∈ pages, e.page = some p

instance (idxs : List WrappedIndex) (pages : List SearchDocument) :
    Decidable (WFIndexes idxs pages) :=
  inferInstanceAs
    (Decidable (∀ idx ∈ idxs, ∀ e ∈ idx.entries, idx.type ≠ 0 → ∃ p ∈ pages, e.page = some p))

/-! ## Concrete instances used by the claims -/

/-- The Title-indexed document of the spec's §8 example:
`{id:1, title:"Getting Started", url:"/docs/intro"}`. -/
def gettingStartedDoc : SearchDocument := ⟨1, "Getting Started", "/docs/intro", none, [], none⟩

/-- Position metadata of the example title: the stems "get" and "start"
cover the literal words "Getting" and "Started". -/
def gettingStartedMeta : List (String × List MetadataPosition) :=
  [("t", [⟨"get", 0, 7⟩, ⟨"start", 8, 15⟩])]

/-- A bundle holding only the Title index of the example document. -/
def c1Indexes : List WrappedIndex :=
  [⟨0, [⟨gettingStartedDoc, none, ["get", "start"], gettingStartedMeta⟩]⟩]

/-- The single result returned for query "start" on `c1Indexes`. -/
def c1Result : SearchResult := ⟨gettingStartedDoc, 0, none, ["start"], gettingStartedMeta⟩

/-- A top-level page document owning a heading entry. -/
def c7Page : SearchDocument := ⟨10, "React Hooks", "/docs/hooks", none, ["Docs"], none⟩

/-- A heading document inside the page above. -/
def c7HeadingDoc : SearchDocument :=
  ⟨11, "useEffect", "/docs/hooks", some "#useeffect", [], none⟩

/-- A bundle with one heading index whose entry carries its owning page. -/
def c7Indexes : List WrappedIndex :=
  [⟨1, [⟨c7HeadingDoc, some c7Page, ["useeffect", "effect"], []⟩]⟩]

/-- The top-level documents of `c7Indexes`. -/
def c7Pages : List SearchDocument := [c7Page]

/-- The single result returned for query "effect" on `c7Indexes`. -/
def c7Result : SearchResult := ⟨c7HeadingDoc, 1, some c7Page, ["effect"], []⟩

/-! ## Safe-markup helper lemmas -/

theorem safeChars_nil : SafeChars [] := ⟨[], rfl, by simp⟩

theorem safeChars_append {a b : List Char} (ha : SafeChars a) (hb : SafeChars b) :
    SafeChars (a ++ b) := by
  obtain ⟨ps, hp, hpok⟩ := ha
  obtain ⟨qs, hq, hqok⟩ := hb
  refine ⟨ps ++ qs, ?_, ?_⟩
  · simp [hp, hq]
  · intro p hp'
    rcases List.mem_append.mp hp' with h | h
    · exact hpok p h
    · exact hqok p h

theorem safeChars_markOpen : SafeChars ("<mark>".toList) :=
  ⟨[.markOpen], by simp [HtmlPiece.renderPiece], by
    intro p hp
    simp at hp
    subst hp
    trivial⟩

theorem safeChars_markClose : SafeChars ("</mark>".toList) :=
  ⟨[.markClose], by simp [HtmlPiece.renderPiece], by
    intro p hp
    simp at hp
    subst hp
    trivial⟩

theorem safeChars_escapeChar (c : Char) : SafeChars (escapeCharL c) := by
  unfold escapeCharL
  split_ifs with h1 h2 h3 h4
  · exact ⟨[.entity "&lt;"], by simp [HtmlPiece.renderPiece], by
      intro p hp; simp at hp; subst hp; simp [pieceOk]⟩
  · exact ⟨[.entity "&gt;"], by simp [HtmlPiece.renderPiece], by
      intro p hp; simp at hp; subst hp; simp [pieceOk]⟩
  · exact ⟨[.entity "&amp;"], by simp [HtmlPiece.renderPiece], by
      intro p hp; simp at hp; subst hp; simp [pieceOk]⟩
  · exact ⟨[.entity "&quot;"], by simp [HtmlPiece.renderPiece], by
      intro p hp; simp at hp; subst hp; simp [pieceOk]⟩
  · exact ⟨[.rawChar c], by simp [HtmlPiece.renderPiece], by
      intro p hp; simp at hp; subst hp; exact ⟨h1, h2, h3, h4⟩⟩

theorem safeChars_escapeList (cs : List Char) : SafeChars (escapeListL cs) := by
  induction cs with
  | nil => exact safeChars_nil
  | cons c cs ih =>
    have : escapeListL (c :: cs) = escapeCharL c ++ escapeListL cs := by
      simp [escapeListL]
    rw [this]
    exact safeChars_append (safeChars_escapeChar c) ih

theorem safeChars_flatten {xs : List (List Char)} (h : ∀ x ∈ xs, SafeChars x) :
    SafeChars xs.flatten := by
  induction xs with
  | nil => exact safeChars_nil
  | cons x xs ih =>
    rw [List.flatten_cons]
    exact safeChars_append (h x (by simp)) (ih (fun y hy => h y (by simp [hy])))

theorem safeChars_ellipsis : SafeChars ['…'] :=
  ⟨[.rawChar '…'], by simp [HtmlPiece.renderPiece], by
    intro p hp; simp at hp; subst hp; exact ⟨by decide, by decide, by decide, by decide⟩⟩

theorem safeChars_highlightAux (toks : List (List Char)) :
    ∀ (fuel : Nat) (cs : List Char), SafeChars (highlightAuxL toks fuel cs) := by
  intro fuel
  induction fuel with
  | zero =>
    intro cs
    cases cs with
    | nil => exact safeChars_nil
    | cons c cs => exact safeChars_escapeList _
  | succ fuel ih =>
    intro cs
    cases cs with
    | nil => exact safeChars_nil
    | cons c cs =>
      rw [highlightAuxL]
      cases bestTokenMatch toks (c :: cs) with
      | some t =>
        exact safeChars_append
          (safeChars_append (safeChars_append safeChars_markOpen (safeChars_escapeList _))
            safeChars_markClose)
          (ih _)
      | none => exact safeChars_append (safeChars_escapeChar c) (ih cs)

theorem safeChars_renderCharPieces (rsIn : List (Nat × Nat)) (p : Nat × Char) :
    SafeChars (renderCharPieces rsIn p) := by
  unfold renderCharPieces
  refine safeChars_append (safeChars_append ?_ (safeChars_escapeChar p.2)) ?_
  · split_ifs
    · exact safeChars_markOpen
    · exact safeChars_nil
  · split_ifs
    · exact safeChars_markClose
    · exact safeChars_nil

theorem safeChars_highlightStemmedL (cs : List Char) (ranges : List (Nat × Nat))
    (budget : Nat) : SafeChars (highlightStemmedL cs ranges budget) := by
  unfold highlightStemmedL
  cases ranges with
  | nil =>
    split_ifs
    · exact safeChars_escapeList cs
    · exact safeChars_append (safeChars_escapeList _) safeChars_ellipsis
  | cons r0 rest =>
    refine safeChars_append (safeChars_append ?_ ?_) ?_
    · split_ifs <;> first | exact safeChars_ellipsis | exact safeChars_nil
    · refine safeChars_flatten ?_
      intro x hx
      obtain ⟨p, _, hpx⟩ := List.mem_map.mp hx
      subst hpx
      exact safeChars_renderCharPieces _ p
    · split_ifs <;> first | exact safeChars_ellipsis | exact safeChars_nil

/-! ## Merge / sort / provenance lemmas for the search pipeline -/

theorem hitKey_mergeInto (a h : RawHit) : hitKey (mergeInto a h) = hitKey a := rfl

theorem insertHit_nodupKeys (acc : List RawHit) (h : RawHit)
    (hnd : (acc.map hitKey).Nodup) : ((insertHit acc h).map hitKey).Nodup := by
  unfold insertHit
  split_ifs with hc
  · rw [List.map_map]
    have hpt : ∀ a ∈ acc,
        (hitKey ∘ fun a => if hitKey a == hitKey h then mergeInto a h else a) a = hitKey a := by
      intro a _
      simp only [Function.comp]
      split_ifs with hk
      · exact hitKey_mergeInto a h
      · rfl
    rw [List.map_congr_left hpt]
    exact hnd
  · rw [List.map_append]
    rw [List.nodup_append]
    refine ⟨hnd, by simp, ?_⟩
    intro k hk hk2
    simp only [List.map_cons, List.map_nil, List.mem_singleton] at hk2
    subst hk2
    obtain ⟨a, ha, hak⟩ := List.mem_map.mp hk
    simp only [List.any_eq_true, beq_iff_eq, not_exists] at hc
    exact absurd hak (by push_neg at hc; exact hc a ha)

theorem foldl_insertHit_nodupKeys :
    ∀ (hits acc : List RawHit), (acc.map hitKey).Nodup →
      ((hits.foldl insertHit acc).map hitKey).Nodup := by
  intro hits
  induction hits with
  | nil => intro acc h; simpa using h
  | cons x xs ih => intro acc h; exact ih _ (insertHit_nodupKeys acc x h)

theorem mergeHits_nodupKeys (hits : List RawHit) :
    ((mergeHits hits).map hitKey).Nodup :=
  foldl_insertHit_nodupKeys hits [] (by simp)

theorem sortHits_perm (hits : List RawHit) : (sortHits hits).Perm hits :=
  List.perm_insertionSort hitLE hits

/-- Provenance skeleton of a raw hit: the fields that the merge pass
never changes. -/
def RawHit.skeleton (h : RawHit) :
    SearchDocument × Nat × Option SearchDocument × List (String × List MetadataPosition) :=
  (h.result.document, h.result.type, h.result.page, h.result.metadata)

theorem skeleton_mergeInto (a h : RawHit) : (mergeInto a h).skeleton = a.skeleton := rfl

theorem insertHit_skeleton (acc : List RawHit) (h : RawHit) :
    ∀ x ∈ insertHit acc h,
      (∃ a ∈ acc, x.skeleton = a.skeleton) ∨ x.skeleton = h.skeleton := by
  intro x hx
  unfold insertHit at hx
  split_ifs at hx with hc
  · obtain ⟨a, ha, hax⟩ := List.mem_map.mp hx
    refine Or.inl ⟨a, ha, ?_⟩
    rw [← hax]
    split_ifs with hk
    · exact skeleton_mergeInto a h
    · rfl
  · rcases List.mem_append.mp hx with h1 | h1
    · exact Or.inl ⟨x, h1, rfl⟩
    · simp only [List.mem_singleton] at h1
      subst h1
      exact Or.inr rfl

theorem foldl_insertHit_skeleton :
    ∀ (hits acc : List RawHit), ∀ x ∈ hits.foldl insertHit acc,
      (∃ a ∈ acc, x.skeleton = a.skeleton) ∨ ∃ h ∈ hits, x.skeleton = h.skeleton := by
  intro hits
  induction hits with
  | nil =>
    intro acc x hx
    simp only [List.foldl_nil] at hx
    exact Or.inl ⟨x, hx, rfl⟩
  | cons y ys ih =>
    intro acc x hx
    rcases ih (insertHit acc y) x hx with h1 | h1
    · obtain ⟨a, ha, hax⟩ := h1
      rcases insertHit_skeleton acc y a ha with h2 | h2
      · obtain ⟨a2, ha2, ha2x⟩ := h2
        exact Or.inl ⟨a2, ha2, hax.trans ha2x⟩
      · exact Or.inr ⟨y, by simp, hax.trans h2⟩
    · obtain ⟨h0, hh0, hx0⟩ := h1
      exact Or.inr ⟨h0, by simp [hh0], hx0⟩

theorem mergeHits_skeleton (hits : List RawHit) :
    ∀ x ∈ mergeHits hits, ∃ h ∈ hits, x.skeleton = h.skeleton := by
  intro x hx
  rcases foldl_insertHit_skeleton hits [] x hx with h1 | h1
  · obtain ⟨a, ha, _⟩ := h1
    exact absurd ha (List.not_mem_nil a)
  · exact h1

theorem rawHits_provenance (idxs : List WrappedIndex) (tokens : List String) :
    ∀ h ∈ rawHits idxs tokens, ∃ idx ∈ idxs, ∃ e ∈ idx.entries,
      h.result.document = e.doc ∧ h.result.type = idx.type ∧
      h.result.page = e.page ∧ h.result.metadata = e.metadata := by
  intro h hh
  unfold rawHits at hh
  obtain ⟨l, hl, hhl⟩ := List.mem_flatten.mp hh
  obtain ⟨idx, hidx, hlidx⟩ := List.mem_map.mp hl
  subst hlidx
  obtain ⟨e, he, hfe⟩ := List.mem_filterMap.mp hhl
  refine ⟨idx, hidx, e, he, ?_⟩
  simp only [hitOf] at hfe
  split at hfe
  · exact absurd hfe (by simp)
  · rw [Option.some.injEq] at hfe
    subst hfe
    exact ⟨rfl, rfl, rfl, rfl⟩

/-! ## Miscellaneous helper lemmas -/

theorem buildHighlightSearchParams_eq (tokens : List String) :
    buildHighlightSearchParams tokens = tokens.map (fun tk => ("_highlight", tk)) := by
  have haux : ∀ (ts : List String) (acc : List (String × String)),
      ts.foldl (fun ps tk => ps ++ [("_highlight", tk)]) acc
        = acc ++ ts.map (fun tk => ("_highlight", tk)) := by
    intro ts
    induction ts with
    | nil => intro acc; simp
    | cons t ts ih => intro acc; simp [ih]
  simpa using haux tokens []

theorem barStep_inv (st : SearchBarState) (ev : BarEvent)
    (h : (st.indexState = IndexState.empty → st.fetchCount = 0) ∧ st.fetchCount ≤ 1) :
    ((barStep st ev).indexState = IndexState.empty → (barStep st ev).fetchCount = 0) ∧
      (barStep st ev).fetchCount ≤ 1 := by
  cases ev with
  | invokeLoadIndex =>
    simp only [barStep]
    split_ifs with hc
    · exact ⟨by simp, by simp [h.1 hc]⟩
    · exact h
  | fetchResolved =>
    simp only [barStep]
    split_ifs with hc
    · exact ⟨by simp, h.2⟩
    · exact h

theorem foldl_barStep_inv (events : List BarEvent) :
    ∀ st : SearchBarState,
      ((st.indexState = IndexState.empty → st.fetchCount = 0) ∧ st.fetchCount ≤ 1) →
      (((events.foldl barStep st).indexState = IndexState.empty →
          (events.foldl barStep st).fetchCount = 0) ∧
        (events.foldl barStep st).fetchCount ≤ 1) := by
  induction events with
  | nil => intro st h; simpa using h
  | cons e es ih => intro st h; exact ih _ (barStep_inv st e h)

/-! ## Claim theorems -/

/-- C2: for every query string, the result list produced by the search
source has length at most the configured limit (100 for the search page),
and no two entries share the same `(document.id, type)` pair. -/
theorem c2_result_limit_and_dedup (wrappedIndexes : List WrappedIndex)
    (zhDictionary : List String) (limit : Nat) (q : String) :
    (searchSourceFactory wrappedIndexes zhDictionary limit q).length ≤ limit ∧
    ((searchSourceFactory wrappedIndexes zhDictionary limit q).map resultKey).Nodup ∧
    (pageSearchSource wrappedIndexes zhDictionary q).length ≤ 100 := by
  refine ⟨?_, ?_, ?_⟩
  · simp only [searchSourceFactory]
    rw [List.length_map, List.length_take]
    exact min_le_left _ _
  · simp only [searchSourceFactory]
    rw [List.map_map]
    have hkey : resultKey ∘ RawHit.result = hitKey := rfl
    rw [hkey]
    have hmerged := mergeHits_nodupKeys (rawHits wrappedIndexes (tokenize zhDictionary q))
    have hsorted :
        ((sortHits (mergeHits (rawHits wrappedIndexes (tokenize zhDictionary q)))).map
          hitKey).Nodup :=
      (List.Perm.nodup_iff ((sortHits_perm _).map hitKey)).mpr hmerged
    rw [List.map_take]
    exact List.Nodup.sublist (List.take_sublist _ _) hsorted
  · simp only [pageSearchSource, searchSourceFactory]
    rw [List.length_map, List.length_take]
    exact min_le_left _ _

/-- C3: when the Mark facility is available and the matched-token list is
non-empty, the result link's query parameters are exactly one repeated
`_highlight` parameter per matched token, in order — none added, none
dropped. -/
theorem c3_highlight_params (tokens : List String) (hne : tokens ≠ []) :
    resultLinkParams true tokens = tokens.map (fun tk => ("_highlight", tk)) ∧
    highlightParamValues (resultLinkParams true tokens) = tokens := by
  have hlen : 0 < tokens.length := List.length_pos.mpr hne
  have h1 : resultLinkParams true tokens = buildHighlightSearchParams tokens := by
    unfold resultLinkParams
    rw [if_pos ⟨rfl, hlen⟩]
  rw [h1, buildHighlightSearchParams_eq]
  refine ⟨rfl, ?_⟩
  unfold highlightParamValues
  rw [List.filter_map, List.map_map]
  have hall : List.filter
      ((fun p : String × String => p.1 == "_highlight") ∘ fun tk => ("_highlight", tk))
      tokens = tokens := by
    refine List.filter_eq_self.mpr ?_
    intro a _
    simp
  rw [hall]
  simp

/-- Witness for C3 at a concrete token list. -/
theorem c3_witness :
    resultLinkParams true ["start"] = [("_highlight", "start")] ∧
    highlightParamValues (resultLinkParams true ["start"]) = ["start"] := by
  have h := c3_highlight_params ["start"] (by decide)
  exact ⟨h.1, h.2⟩

/-- C4: for the empty query the page never invokes the search source and
commits the absent value, which renders nothing — distinguished from an
empty result list, which renders the "no documents found" message in
production. -/
theorem c4_empty_query_no_search :
    (∀ (src : String → List SearchResult) (prev : Option (List SearchResult)),
      runSearchEffect (some src) "" prev = (none, 0)) ∧
    (∀ prev, runSearchEffect none "" prev = (prev, 0)) ∧
    (∀ isProduction, renderResults isProduction none = ResultsRender.nothing) ∧
    renderResults true (some []) = ResultsRender.noDocumentsMessage ∧
    (∀ isProduction rs, renderResults isProduction (some rs) ≠ ResultsRender.nothing) := by
  refine ⟨?_, ?_, ?_, rfl, ?_⟩
  · intro src prev
    simp [runSearchEffect]
  · intro prev
    rfl
  · intro isProduction
    rfl
  · intro isProduction rs
    by_cases hl : 0 < rs.length <;> by_cases hp : isProduction = true <;>
      simp [renderResults, hl, hp]

/-- C5: after any sequence of query changes, the committed visible result
state is determined by the most recent query alone — results of
superseded queries are never the ones stored. -/
theorem c5_latest_query_wins (src : String → List SearchResult)
    (init : Option (List SearchResult)) (qs : List String) (q : String) :
    processQueries src init (qs ++ [q]) = (if q ≠ "" then some (src q) else none) := by
  unfold processQueries
  rw [List.foldl_append]
  simp only [List.foldl_cons, List.foldl_nil, runSearchEffect]
  split_ifs <;> rfl

/-- C6: once `loadIndex` has moved the search-bar state off "empty",
every later invocation is a no-op, and over any event sequence at most
one `fetchIndexes` call is ever issued. -/
theorem c6_single_fetch :
    (∀ st : SearchBarState, st.indexState ≠ IndexState.empty →
      barStep st BarEvent.invokeLoadIndex = st) ∧
    (∀ events : List BarEvent, (runBar events).fetchCount ≤ 1) := by
  constructor
  · intro st h
    unfold barStep
    rw [if_neg h]
  · intro events
    exact (foldl_barStep_inv events ⟨IndexState.empty, 0⟩ ⟨fun _ => rfl, by decide⟩).2

/-- Witness for C6 at a concrete state and event sequence. -/
theorem c6_witness :
    barStep ⟨IndexState.done, 1⟩ BarEvent.invokeLoadIndex = ⟨IndexState.done, 1⟩ ∧
    (runBar [BarEvent.invokeLoadIndex, BarEvent.invokeLoadIndex, BarEvent.fetchResolved,
        BarEvent.invokeLoadIndex]).fetchCount ≤ 1 :=
  ⟨c6_single_fetch.1 ⟨IndexState.done, 1⟩ (by decide), c6_single_fetch.2 _⟩

/-- C8: a failed index fetch surfaces the error to the caller, publishes
nothing, and leaves the previously loaded bundle (if any) answering
queries; every published state is either the initial one or a bundle
from some successful load. -/
theorem c8_failed_load_keeps_prior :
    (∀ (prev : Option (List WrappedIndex)) (e : LoadError),
      doFetchIndexes (Except.error e) prev = (prev, some e)) ∧
    (∀ (init : Option (List WrappedIndex))
        (outs : List (Except LoadError (List WrappedIndex))) (e : LoadError),
      runLoads init (outs ++ [Except.error e]) = runLoads init outs) ∧
    (∀ (init : Option (List WrappedIndex))
        (outs : List (Except LoadError (List WrappedIndex))),
      runLoads init outs = init ∨
        ∃ b, Except.ok b ∈ outs ∧ runLoads init outs = some b) := by
  refine ⟨fun prev e => rfl, ?_, ?_⟩
  · intro init outs e
    unfold runLoads
    rw [List.foldl_append]
    rfl
  · intro init outs
    induction outs generalizing init with
    | nil => exact Or.inl rfl
    | cons o os ih =>
      cases o with
      | error e =>
        have hstep : runLoads init (Except.error e :: os) = runLoads init os := rfl
        rw [hstep]
        rcases ih init with h | ⟨b, hb, hr⟩
        · exact Or.inl h
        · exact Or.inr ⟨b, List.mem_cons_of_mem _ hb, hr⟩
      | ok bb =>
        have hstep : runLoads init (Except.ok bb :: os) = runLoads (some bb) os := rfl
        rcases ih (some bb) with h | ⟨b, hb, hr⟩
        · exact Or.inr ⟨bb, by simp, by rw [hstep]; exact h⟩
        · exact Or.inr ⟨b, by simp [hb], by rw [hstep]; exact hr⟩

/-- C10: an empty URL search value leaves the page's query state and its
displayed results untouched; only a non-empty value that differs from
the current query overwrites the query. -/
theorem c10_url_clear_keeps_state :
    (∀ (q : String) (rs : Option (List SearchResult)), syncEffect "" (q, rs) = (q, rs)) ∧
    (∀ (v q : String) (rs : Option (List SearchResult)),
      v ≠ "" → v ≠ q → syncEffect v (q, rs) = (v, rs)) := by
  constructor
  · intro q rs
    simp [syncEffect, syncQueryFromUrl]
  · intro v q rs hv hq
    simp [syncEffect, syncQueryFromUrl, hv, hq]

/-- Witness for C10 at concrete values. -/
theorem c10_witness :
    syncEffect "" ("cache", none) = ("cache", none) ∧
    syncEffect "hooks" ("cache", none) = ("hooks", none) :=
  ⟨c10_url_clear_keeps_state.1 "cache" none,
    c10_url_clear_keeps_state.2 "hooks" "cache" none (by decide) (by decide)⟩

/-- C1 (counterexample): for the §8 example document and query "start",
the search page does not render the title with the exact-mode
highlighter — the title goes through `highlightStemmed`, whose output
wraps the whole word "Started" (so "ed" is inside the marker), while the
exact-mode `highlight` would wrap only "Start". -/
theorem c1_counterexample :
    searchSourceFactory c1Indexes [] 100 "start" = [c1Result] ∧
    highlight "Getting Started" ["start"] = "Getting <mark>Start</mark>ed" ∧
    searchResultTitleHtml c1Result = "Getting <mark>Started</mark>" ∧
    searchResultTitleHtml c1Result ≠ highlight (c1Result.document.t) c1Result.tokens := by
  decide

/-- C1 (amended): for the Title-indexed document
`{id:1, title:"Getting Started", url:"/docs/intro"}` and query "start",
search yields exactly one result with type = Title and document.id = 1,
and the page renders its title with the stemmed-mode highlighter over the
position metadata, wrapping the literal word "Started" in the highlight
marker and leaving "Getting " unmarked. -/
theorem c1_title_search_and_render :
    (searchSourceFactory c1Indexes [] 100 "start").length = 1 ∧
    searchSourceFactory c1Indexes [] 100 "start" = [c1Result] ∧
    c1Result.type = 0 ∧ c1Result.document.i = 1 ∧
    searchResultTitleHtml c1Result = "Getting <mark>Started</mark>" := by
  decide

/-- C7: every emitted Heading/Content result carries its owning top-level
document in `page`, and the displayed path is the page's breadcrumb list
with the page title appended exactly when the result is not Title-type;
a Title result's path is its own breadcrumb list unchanged. -/
theorem c7_page_owner_and_display_path (idxs : List WrappedIndex) (dict : List String)
    (limit : Nat) (q : String) (pages : List SearchDocument)
    (hwf : WFIndexes idxs pages) :
    ∀ r ∈ searchSourceFactory idxs dict limit q,
      (r.type = 0 → pathItems r = r.document.b) ∧
      (r.type ≠ 0 → ∃ p, r.page = some p ∧ p ∈ pages ∧ pathItems r = p.b ++ [p.t]) := by
  intro r hr
  constructor
  · intro ht
    simp [pathItems, ht]
  · intro ht
    simp only [searchSourceFactory] at hr
    obtain ⟨x, hx, hxr⟩ := List.mem_map.mp hr
    have hsort : x ∈ sortHits (mergeHits (rawHits idxs (tokenize dict q))) :=
      List.take_subset _ _ hx
    have hmerge : x ∈ mergeHits (rawHits idxs (tokenize dict q)) :=
      (sortHits_perm _).subset hsort
    obtain ⟨h0, hh0, hskel⟩ := mergeHits_skeleton _ x hmerge
    obtain ⟨idx, hidx, e, he, hdoc, htype, hpage, hmeta⟩ :=
      rawHits_provenance idxs (tokenize dict q) h0 hh0
    simp only [RawHit.skeleton, Prod.mk.injEq] at hskel
    obtain ⟨hd, ht2, hp2, hm2⟩ := hskel
    subst hxr
    have htype2 : x.result.type = idx.type := ht2.trans htype
    have hidxne : idx.type ≠ 0 := by rw [← htype2]; exact ht
    obtain ⟨p, hp, hep⟩ := hwf idx hidx e he hidxne
    have hpg : x.result.page = some p := by rw [hp2, hpage, hep]
    refine ⟨p, hpg, hp, ?_⟩
    have hbe : (x.result.type == 0) = false := by simpa using ht
    simp [pathItems, hbe, hpg]

/-- Witness for C7 on a concrete heading bundle. -/
theorem c7_witness :
    ∃ p, c7Result.page = some p ∧ p ∈ c7Pages ∧ pathItems c7Result = p.b ++ [p.t] :=
  (c7_page_owner_and_display_path c7Indexes [] 100 "effect" c7Pages (by decide)
    c7Result (by decide)).2 (by decide)

/-- C9: for every input text and token set, the markup produced by the
highlighting functions that the result page injects as raw HTML
decomposes into inserted marker tags, escape entities and
non-markup-significant characters — no unescaped markup-significant
character of the source text survives outside the inserted markers. -/
theorem c9_highlight_output_safe :
    (∀ (text : String) (tokens : List String), SafeMarkup (highlight text tokens)) ∧
    (∀ (text : String) (positions : List MetadataPosition) (tokens : List String)
        (budget : Nat), SafeMarkup (highlightStemmed text positions tokens budget)) ∧
    (∀ r : SearchResult, SafeMarkup (searchResultTitleHtml r)) := by
  have hh : ∀ (text : String) (tokens : List String), SafeMarkup (highlight text tokens) := by
    intro text tokens
    exact safeChars_highlightAux _ _ _
  have hs : ∀ (text : String) (positions : List MetadataPosition) (tokens : List String)
      (budget : Nat), SafeMarkup (highlightStemmed text positions tokens budget) := by
    intro text positions tokens budget
    exact safeChars_highlightStemmedL _ _ _
  refine ⟨hh, hs, ?_⟩
  intro r
  unfold searchResultTitleHtml
  split_ifs with hc
  · exact hh _ _
  · exact hs _ _ _ _
